import Mathlib

/-!
Verification of the load-balancer request-dispatch core.

Shallow embedding of the request-dispatch core of the `@blank-utils/load-balancer`
repository: the `Endpoint` / `GeoEndpoint` data model, URL normalization, geo
selection (`selectGeoEndpoints`), the candidate-list computation
(`getEndpointsToTry`), the three availability strategies (`failForward`,
`asyncBlock`, `promiseAny`), the health-check timeout computation
(`getHealthCheckTimeout`) and the response annotator (`addLoadBalancerHeaders`).

Conventions of the embedding:
* JS strings are Lean `String`s; the regex `replace(/\/$/, "")` becomes
  "drop the final character when it is a slash".
* JS numbers that hold millisecond counts or HTTP statuses are `Nat`.
* Network effects (forwarding, health checking, body buffering, the
  promise-any race, `Date.now()`) are passed in as explicit oracles:
  `fwd : Endpoint → BufferedBody → Except ε Response`,
  `check : Endpoint → Except ε Bool`, `bufferResult : Except ε BufferedBody`,
  `raceResult : Option Endpoint`, and explicit time stamps.
* Each strategy returns its `Except` result paired with the trace of
  network attempts it performed, so that "no forward was attempted" and
  "forwarding used a null body" are statable.
-/

namespace LoadBalancer

/-- A buffered request body: `none` models the JS `null` (no body), `some bytes`
models an `ArrayBuffer` captured from the inbound stream. -/
abbrev BufferedBody := Option (List Nat)

/-- Model of a `Response` as consumed by the dispatch core: its HTTP status and
its headers (an ordered name/value list, as in the `Headers` object). -/
structure Response where
  status : Nat
  headers : List (String × String)
deriving DecidableEq, Repr

/-- Model of `Endpoint` from `src/Endpoint.ts`: a backend URL with health-check path,
weight and timeout (defaults `"/"`, `1`, `30000`). -/
structure Endpoint where
  url : String
  healthCheckPath : String := "/"
  weight : Nat := 1
  timeoutMs : Nat := 30000
deriving DecidableEq, Repr

/-- Model of `Endpoint.normalizedUrl` from `src/Endpoint.ts`:
`this.url.replace(/\/$/, "")`, i.e. the url with one final `/` removed when
present. -/
def Endpoint.normalizedUrl (ep : Endpoint) : String :=
  if ep.url.data.getLast? = some '/' then String.mk ep.url.data.dropLast else ep.url

/-- Model of `Endpoint.healthCheckUrl` from `src/Endpoint.ts`. -/
def Endpoint.healthCheckUrl (ep : Endpoint) : String :=
  ep.normalizedUrl ++ ep.healthCheckPath

/-- Model of `Endpoint.buildTargetUrl` from `src/Endpoint.ts`. -/
def Endpoint.buildTargetUrl (ep : Endpoint) (pathname search : String) : String :=
  ep.normalizedUrl ++ pathname ++ search

/-- The url-normalization function itself (shared by `Endpoint.normalizedUrl`
and `GeoEndpoint.normalizedUrl`, both of which are `url.replace(/\/$/, "")`). -/
def normalizeUrl (u : String) : String :=
  if u.data.getLast? = some '/' then String.mk u.data.dropLast else u

/-- A url "ends with `//`": its last character is a slash and so is the one
before it. -/
def endsWithTwoSlashes (u : String) : Prop :=
  u.data.getLast? = some '/' ∧ u.data.dropLast.getLast? = some '/'

instance (u : String) : Decidable (endsWithTwoSlashes u) := by
  unfold endsWithTwoSlashes; infer_instance

/-! ## Geo steering (`src/GeoEndpoint.ts`, `src/GeoSteering.ts`) -/

/-- Model of `GeoConfig` from `src/GeoEndpoint.ts`: a tagged union over continent,
country, region or colo code sets (codes are strings, matched exactly). -/
inductive GeoConfig where
  | continent (continents : List String)
  | country (countries : List String)
  | region (regions : List String)
  | colo (colos : List String)
deriving DecidableEq, Repr

/-- Model of `GeoEndpoint` from `src/GeoEndpoint.ts`: Endpoint fields plus a `geo` rule. -/
structure GeoEndpoint where
  url : String
  healthCheckPath : String := "/"
  weight : Nat := 1
  timeoutMs : Nat := 30000
  geo : GeoConfig
deriving DecidableEq, Repr

/-- Model of `GeoEndpoint.toEndpoint` from `src/GeoEndpoint.ts`. -/
def GeoEndpoint.toEndpoint (ge : GeoEndpoint) : Endpoint :=
  { url := ge.url
    healthCheckPath := ge.healthCheckPath
    weight := ge.weight
    timeoutMs := ge.timeoutMs }

/-- Model of `GeoEndpoint.normalizedUrl` from `src/GeoEndpoint.ts` (same
`url.replace(/\/$/, "")`). -/
def GeoEndpoint.normalizedUrl (ge : GeoEndpoint) : String :=
  normalizeUrl ge.url

/-- Model of `CfProperties` from `src/GeoSteering.ts`: the optional geo tags the edge
platform attaches to a request (`undefined` fields become `none`). -/
structure CfProperties where
  continent : Option String := none
  country : Option String := none
  regionCode : Option String := none
  colo : Option String := none
deriving DecidableEq, Repr

/-- Model of `GeoEndpoint.matchesCfProperties` from `src/GeoEndpoint.ts`: the one
populated rule dimension is compared against the corresponding tag; an absent
tag never matches. -/
def GeoEndpoint.matchesCfProperties (ge : GeoEndpoint) (cf : CfProperties) : Bool :=
  match ge.geo with
  | .continent cs =>
      match cf.continent with
      | some c => cs.contains c
      | none => false
  | .country cs =>
      match cf.country with
      | some c => cs.contains c
      | none => false
  | .region rs =>
      match cf.regionCode with
      | some r => rs.contains r
      | none => false
  | .colo cs =>
      match cf.colo with
      | some c => cs.contains c
      | none => false

/-- One step of the `seen`-guarded push used by loops 2 and 3 of
`selectGeoEndpoints`: push the endpoint and record its url unless the url was
already seen. -/
def seenStep (acc : List Endpoint × List String) (ep : Endpoint) :
    List Endpoint × List String :=
  if acc.2.contains ep.url then acc else (acc.1 ++ [ep], acc.2 ++ [ep.url])

/-- Model of `selectGeoEndpoints` from `src/GeoSteering.ts`, with the three imperative
loops rendered as folds over an `(orderedEndpoints, seen)` accumulator.  Note
that the first loop pushes every matched endpoint unconditionally (it records
urls in `seen` but performs no membership check). -/
def selectGeoEndpoints (geoEndpoints : List GeoEndpoint) (cf : Option CfProperties)
    (defaultEndpoints : List Endpoint := []) : List Endpoint :=
  match cf with
  | none =>
      if 0 < defaultEndpoints.length then defaultEndpoints
      else geoEndpoints.map GeoEndpoint.toEndpoint
  | some c =>
      let matched := geoEndpoints.filter (fun ge => ge.matchesCfProperties c)
      if 0 < matched.length then
        let acc1 := matched.foldl
          (fun (acc : List Endpoint × List String) ge =>
            (acc.1 ++ [ge.toEndpoint], acc.2 ++ [ge.url])) ([], [])
        let acc2 := defaultEndpoints.foldl seenStep acc1
        let acc3 := geoEndpoints.foldl
          (fun acc ge => seenStep acc ge.toEndpoint) acc2
        acc3.1
      else
        if 0 < defaultEndpoints.length then defaultEndpoints
        else geoEndpoints.map GeoEndpoint.toEndpoint

/-- Steering configuration of `LoadBalancerOptions` (always `type: "geo"`),
from `LoadBalancer.ts`. -/
structure SteeringConfig where
  defaultEndpoints : List Endpoint := []
deriving DecidableEq, Repr

/-- The configuration fields of `LoadBalancerOptions` that determine the
candidate list (from `LoadBalancer.ts`). -/
structure LoadBalancerOptions where
  endpoints : Option (List Endpoint) := none
  geoEndpoints : Option (List GeoEndpoint) := none
  steering : Option SteeringConfig := none
deriving DecidableEq, Repr

/-- Model of `getEndpointsToTry` from `LoadBalancer.ts`: the geo path runs when both a
geo steering config and geo endpoints are present; otherwise the flat
`endpoints` list (or `[]`) is used as-is. -/
def getEndpointsToTry (options : LoadBalancerOptions) (cf : Option CfProperties) :
    List Endpoint :=
  match options.steering, options.geoEndpoints with
  | some st, some ges => selectGeoEndpoints ges cf st.defaultEndpoints
  | _, _ => options.endpoints.getD []

/-! ### Declarative characterization of the geo-selection loops -/

/-- Keep the first occurrence of each url not already in `seen`: the
declarative form of the `seen`-guarded loops. -/
def keepFirstByUrl (seen : List String) : List Endpoint → List Endpoint
  | [] => []
  | ep :: rest =>
      if seen.contains ep.url then keepFirstByUrl seen rest
      else ep :: keepFirstByUrl (seen ++ [ep.url]) rest

/-- The loop-free characterization of `selectGeoEndpoints` proved below: all
matched endpoints in input order (duplicates included), then the defaults whose
url was not yet seen, then the remaining geo endpoints whose url was not yet
seen. -/
def selectGeoEndpointsModel (geoEndpoints : List GeoEndpoint)
    (cf : Option CfProperties) (defaultEndpoints : List Endpoint) :
    List Endpoint :=
  match cf with
  | none =>
      if 0 < defaultEndpoints.length then defaultEndpoints
      else geoEndpoints.map GeoEndpoint.toEndpoint
  | some c =>
      let matched := geoEndpoints.filter (fun ge => ge.matchesCfProperties c)
      if 0 < matched.length then
        let seen1 := matched.map GeoEndpoint.url
        let ds := keepFirstByUrl seen1 defaultEndpoints
        let rest := keepFirstByUrl (seen1 ++ ds.map Endpoint.url)
          (geoEndpoints.map GeoEndpoint.toEndpoint)
        matched.map GeoEndpoint.toEndpoint ++ ds ++ rest
      else
        if 0 < defaultEndpoints.length then defaultEndpoints
        else geoEndpoints.map GeoEndpoint.toEndpoint

/-- The geo selection as the specification words it — matched origins in input
order with duplicates by URL removed keeping the first, then fallback origins
not already present, then remaining geo origins not already present, and
fallback-or-all when tags are absent or nothing matches — stated for
comparison with the code's `selectGeoEndpoints`. -/
def selectGeoEndpointsSpec (geoEndpoints : List GeoEndpoint)
    (cf : Option CfProperties) (defaultEndpoints : List Endpoint) :
    List Endpoint :=
  match cf with
  | none =>
      if 0 < defaultEndpoints.length then defaultEndpoints
      else geoEndpoints.map GeoEndpoint.toEndpoint
  | some c =>
      let matched := geoEndpoints.filter (fun ge => ge.matchesCfProperties c)
      if 0 < matched.length then
        let m := keepFirstByUrl [] (matched.map GeoEndpoint.toEndpoint)
        let ds := keepFirstByUrl (m.map Endpoint.url) defaultEndpoints
        let rest := keepFirstByUrl (m.map Endpoint.url ++ ds.map Endpoint.url)
          (geoEndpoints.map GeoEndpoint.toEndpoint)
        m ++ ds ++ rest
      else
        if 0 < defaultEndpoints.length then defaultEndpoints
        else geoEndpoints.map GeoEndpoint.toEndpoint

/-! ## Response annotation (`Headers.ts` / `dist/Headers.js`) -/

/-- Header names from `HEADERS` in `Headers.ts`. -/
def HEADER_ENDPOINT : String := "X-Load-Balancer-Endpoint"

def HEADER_LATENCY : String := "X-Load-Balancer-Latency"

def HEADER_GATHER_LATENCY : String := "X-Load-Balancer-Endpoint-Gather-Latency"

def HEADER_TRIED_COUNT : String := "X-Load-Balancer-Tried-Count"

def HEADER_TRIED_ENDPOINTS : String := "X-Load-Balancer-Tried-Endpoints"

/-- Model of `Headers.set`: replace any existing value for `name` with `value`.  The
position of the entry is irrelevant to every claim, so the model removes the
old entry and appends the new one. -/
def setHeader (hs : List (String × String)) (name value : String) :
    List (String × String) :=
  hs.filter (fun p => p.1 ≠ name) ++ [(name, value)]

/-- Whether a header with the given name is present. -/
def hasHeader (hs : List (String × String)) (name : String) : Bool :=
  hs.any (fun p => p.1 == name)

/-- Model of `addLoadBalancerHeaders` from `Headers.ts`: stamp the serving endpoint and
the latency headers; stamp the tried-count / tried-endpoints headers only when
more than one endpoint was tried.  `endTime` models the `Date.now()` sampled
inside the function. -/
def addLoadBalancerHeaders (response : Response) (endpoint : Endpoint)
    (triedEndpoints : List Endpoint) (startTime gatherTime endTime : Nat) :
    Response :=
  let hs1 := setHeader response.headers HEADER_ENDPOINT endpoint.url
  let hs2 := setHeader hs1 HEADER_LATENCY (toString (endTime - startTime))
  let hs3 := setHeader hs2 HEADER_GATHER_LATENCY (toString (gatherTime - startTime))
  let hs4 :=
    if 1 < triedEndpoints.length then
      setHeader
        (setHeader hs3 HEADER_TRIED_COUNT (toString triedEndpoints.length))
        HEADER_TRIED_ENDPOINTS
        (String.intercalate ", " (triedEndpoints.map Endpoint.url))
    else hs3
  { status := response.status, headers := hs4 }

/-! ## Errors (`Errors.ts`) and the strategy state -/

/-- The possible values of the mutable `lastError` slot of a strategy run,
tagged by provenance: a `RequestForwardError` from `forwardRequest`
(`transport`), the synthetic `Error("Endpoint returned status N")` of the
fail-forward strategy (`badStatus`), an `EndpointUnhealthyError` from the
health checker (`health`), or a failure of `bufferRequestBody` (`buffer`).
`ε` is the opaque payload type of the injected failures. -/
inductive LastError (ε : Type) where
  | transport (e : ε)
  | badStatus (status : Nat)
  | health (e : ε)
  | buffer (e : ε)
deriving DecidableEq, Repr

/-- Model of `NoHealthyEndpointsError` from `Errors.ts`: the exhaustion error carrying
the tried list and the last observed failure (`none` models an absent
`lastError` field). -/
structure NoHealthyEndpointsError (ε : Type) where
  triedEndpoints : List Endpoint
  lastError : Option (LastError ε) := none
deriving DecidableEq, Repr

/-- A network attempt performed by a strategy: a health probe of an endpoint,
or a forwarding attempt carrying the body that was handed to `forwardRequest`. -/
inductive AttemptEvent where
  | healthCheck (endpoint : Endpoint)
  | forwardAttempt (endpoint : Endpoint) (body : BufferedBody)
deriving DecidableEq, Repr

/-- A strategy run yields its `Effect` result together with the ordered trace
of network attempts it performed. -/
abbrev StrategyResult (ε : Type) :=
  Except (NoHealthyEndpointsError ε) Response × List AttemptEvent

/-- The body each strategy forwards with: the buffered body on success, `null`
when buffering failed (`Effect.catchAll` replaces the failure with `null`). -/
def bufferedOrNull : Except ε BufferedBody → BufferedBody
  | .ok b => b
  | .error _ => none

/-- The value left in `lastError` by the buffering step of `failForward` and
`asyncBlock`: the buffering failure, or nothing when buffering succeeded. -/
def initialLastError : Except ε BufferedBody → Option (LastError ε)
  | .ok _ => none
  | .error e => some (.buffer e)

/-- Model of `DEFAULT_FAILOVER_STATUSES` from `AvailabilityMethod.ts`. -/
def DEFAULT_FAILOVER_STATUSES : List Nat := [502, 503, 504]

/-! ## Strategy A: `failForward` -/

/-- The candidate loop of `failForward`: `tried` and `lastError` are the
accumulated loop state; `gatherTimeOf i` models the `Date.now()` sampled on the
iteration whose endpoint is the `i`-th attempted. -/
def failForwardGo (fwd : Endpoint → BufferedBody → Except ε Response)
    (failoverStatuses : List Nat) (body : BufferedBody)
    (startTime : Nat) (gatherTimeOf : Nat → Nat) (endTime : Nat) :
    List Endpoint → List Endpoint → Option (LastError ε) → StrategyResult ε
  | [], tried, lastError => (.error ⟨tried, lastError⟩, [])
  | ep :: rest, tried, _ =>
      let tried' := tried ++ [ep]
      let gatherTime := gatherTimeOf tried.length
      match fwd ep body with
      | .ok response =>
          if failoverStatuses.contains response.status then
            let next := failForwardGo fwd failoverStatuses body startTime
              gatherTimeOf endTime rest tried' (some (.badStatus response.status))
            (next.1, .forwardAttempt ep body :: next.2)
          else
            (.ok (addLoadBalancerHeaders response ep tried' startTime gatherTime
                endTime),
             [.forwardAttempt ep body])
      | .error e =>
          let next := failForwardGo fwd failoverStatuses body startTime
            gatherTimeOf endTime rest tried' (some (.transport e))
          (next.1, .forwardAttempt ep body :: next.2)

/-- Model of `failForward` from `AvailabilityMethod.ts`: buffer once (recording a
buffering failure as the initial `lastError` and falling back to a `null`
body), then try the endpoints in order, returning the first response whose
status is not a failover status and failing over on transport errors and
failover statuses; exhaustion raises `NoHealthyEndpointsError` with the full
tried list and last error.  `fwd` and `bufferResult` are the network oracles.  -/
def failForward (endpoints : List Endpoint)
    (fwd : Endpoint → BufferedBody → Except ε Response)
    (bufferResult : Except ε BufferedBody)
    (startTime : Nat) (gatherTimeOf : Nat → Nat) (endTime : Nat)
    (failoverStatuses : List Nat := DEFAULT_FAILOVER_STATUSES) :
    StrategyResult ε :=
  failForwardGo fwd failoverStatuses (bufferedOrNull bufferResult) startTime
    gatherTimeOf endTime endpoints [] (initialLastError bufferResult)

/-! ## Strategy B: `asyncBlock` -/

/-- The candidate loop of `asyncBlock`: probe health first; forward only when
the probe succeeded; fall through to the next candidate on an unhealthy probe
or a failed forward, remembering the error. -/
def asyncBlockGo (check : Endpoint → Except ε Bool)
    (fwd : Endpoint → BufferedBody → Except ε Response) (body : BufferedBody)
    (startTime : Nat) (gatherTimeOf : Nat → Nat) (endTime : Nat) :
    List Endpoint → List Endpoint → Option (LastError ε) → StrategyResult ε
  | [], tried, lastError => (.error ⟨tried, lastError⟩, [])
  | ep :: rest, tried, _ =>
      let tried' := tried ++ [ep]
      let gatherTime := gatherTimeOf tried.length
      match check ep with
      | .ok _ =>
          match fwd ep body with
          | .ok response =>
              (.ok (addLoadBalancerHeaders response ep tried' startTime
                  gatherTime endTime),
               [.healthCheck ep, .forwardAttempt ep body])
          | .error e =>
              let next := asyncBlockGo check fwd body startTime gatherTimeOf
                endTime rest tried' (some (.transport e))
              (next.1, .healthCheck ep :: .forwardAttempt ep body :: next.2)
      | .error e =>
          let next := asyncBlockGo check fwd body startTime gatherTimeOf
            endTime rest tried' (some (.health e))
          (next.1, .healthCheck ep :: next.2)

/-- Model of `asyncBlock` from `AvailabilityMethod.ts`: buffer once (as in
`failForward`), then sequentially health-check and forward; the first healthy
endpoint whose forward succeeds is returned regardless of its status. -/
def asyncBlock (endpoints : List Endpoint)
    (check : Endpoint → Except ε Bool)
    (fwd : Endpoint → BufferedBody → Except ε Response)
    (bufferResult : Except ε BufferedBody)
    (startTime : Nat) (gatherTimeOf : Nat → Nat) (endTime : Nat) :
    StrategyResult ε :=
  asyncBlockGo check fwd (bufferedOrNull bufferResult) startTime gatherTimeOf
    endTime endpoints [] (initialLastError bufferResult)

/-! ## Strategy C: `promiseAny` -/

/-- Model of `promiseAny` from `AvailabilityMethod.ts`.  The `Effect.raceAll` of all
health checks bounded by the fixed `Effect.timeout("10 seconds")` ceiling is a
concurrent computation; its outcome is injected as `raceResult`: `some w` means
endpoint `w` was the first to report healthy within the ceiling, `none` means
no candidate reported healthy before the ceiling elapsed.  Note the buffering
step is `Effect.catchAll(() => Effect.succeed(null))`: a buffering failure is
discarded, not recorded.  The empty-candidate check precedes buffering and the
race.  On a winner, the forward failure is mapped to an exhaustion error whose
tried list is all candidates; on success the response is annotated with the
tried list `[endpoint]`. -/
def promiseAny (endpoints : List Endpoint) (raceResult : Option Endpoint)
    (fwd : Endpoint → BufferedBody → Except ε Response)
    (bufferResult : Except ε BufferedBody)
    (startTime gatherTime endTime : Nat) : StrategyResult ε :=
  if endpoints.length = 0 then
    (.error ⟨[], none⟩, [])
  else
    let body := bufferedOrNull bufferResult
    let raceEvents := endpoints.map AttemptEvent.healthCheck
    match raceResult with
    | none => (.error ⟨endpoints, none⟩, raceEvents)
    | some endpoint =>
        match fwd endpoint body with
        | .error e =>
            (.error ⟨endpoints, some (.transport e)⟩,
             raceEvents ++ [.forwardAttempt endpoint body])
        | .ok response =>
            (.ok (addLoadBalancerHeaders response endpoint [endpoint] startTime
                gatherTime endTime),
             raceEvents ++ [.forwardAttempt endpoint body])

/-! ## Health-check timeout (`HealthChecker.js`) -/

/-- Model of `DEFAULT_HEALTH_CHECK_TIMEOUT_MS` from `HealthChecker.js`. -/
def DEFAULT_HEALTH_CHECK_TIMEOUT_MS : Nat := 5000

/-- Model of `getHealthCheckTimeout` from `HealthChecker.js`:
`Math.max(1000, Math.min(Math.floor(endpoint.timeoutMs / 2), 10000))`
(timeouts are modelled as natural numbers of milliseconds, so `/ 2` is the
floored halving). -/
def getHealthCheckTimeout (endpoint : Endpoint) : Nat :=
  let halfTimeout := endpoint.timeoutMs / 2
  max 1000 (min halfTimeout 10000)

deriving instance DecidableEq for Except

/-! ## Concrete fixtures used by witnesses and counterexamples -/

/-- A first sample endpoint. -/
def epOne : Endpoint := { url := "http://one" }

/-- A second sample endpoint. -/
def epTwo : Endpoint := { url := "http://two" }

/-- A forward oracle where `epOne` answers 502 and everything else 200. -/
def fwdBadThenGood : Endpoint → BufferedBody → Except String Response :=
  fun ep _ => if ep.url = "http://one" then .ok ⟨502, []⟩ else .ok ⟨200, []⟩

/-- A forward oracle that always fails at the transport level. -/
def fwdAlwaysDown : Endpoint → BufferedBody → Except String Response :=
  fun _ _ => .error "down"

/-- A forward oracle that always answers 500 with no headers. -/
def fwdAlways500 : Endpoint → BufferedBody → Except String Response :=
  fun _ _ => .ok ⟨500, []⟩

/-- A health oracle where `epOne` is unhealthy and everything else healthy. -/
def checkOneDown : Endpoint → Except String Bool :=
  fun ep => if ep.url = "http://one" then .error "unhealthy" else .ok true

/-- A health oracle that reports every endpoint healthy. -/
def checkAllHealthy : Endpoint → Except String Bool :=
  fun _ => .ok true

/-- A geo endpoint targeting Europe at `http://a`. -/
def geoDupA : GeoEndpoint := { url := "http://a", geo := .continent ["EU"] }

/-- Request geo tags placing the client in Europe. -/
def cfEU : CfProperties := { continent := some "EU" }

/-- A configuration whose flat endpoint list contains a duplicate. -/
def optsDup : LoadBalancerOptions := { endpoints := some [epOne, epOne] }

/-! ## Attempt outcomes and trace predicates -/

/-- The outcome of one fail-forward attempt at `ep`: the response when the
forward succeeds with a non-failover status, `none` otherwise. -/
def goodForward? (fwd : Endpoint → BufferedBody → Except ε Response)
    (failoverStatuses : List Nat) (body : BufferedBody) (ep : Endpoint) :
    Option Response :=
  match fwd ep body with
  | .ok r => if failoverStatuses.contains r.status then none else some r
  | .error _ => none

/-- The failure one fail-forward attempt at `ep` records in `lastError`
(`none` when the attempt succeeds with a non-failover status). -/
def forwardFailure? (fwd : Endpoint → BufferedBody → Except ε Response)
    (failoverStatuses : List Nat) (body : BufferedBody) (ep : Endpoint) :
    Option (LastError ε) :=
  match fwd ep body with
  | .ok r =>
      if failoverStatuses.contains r.status then some (.badStatus r.status)
      else none
  | .error e => some (.transport e)

/-- The outcome of one health-gated attempt at `ep`: the response when the
health probe passes and the forward succeeds (whatever its status), `none`
otherwise. -/
def goodCheckedForward? (check : Endpoint → Except ε Bool)
    (fwd : Endpoint → BufferedBody → Except ε Response) (body : BufferedBody)
    (ep : Endpoint) : Option Response :=
  match check ep with
  | .ok _ =>
      match fwd ep body with
      | .ok r => some r
      | .error _ => none
  | .error _ => none

/-- The failure one health-gated attempt at `ep` records in `lastError`
(`none` when the attempt succeeds). -/
def checkedFailure? (check : Endpoint → Except ε Bool)
    (fwd : Endpoint → BufferedBody → Except ε Response) (body : BufferedBody)
    (ep : Endpoint) : Option (LastError ε) :=
  match check ep with
  | .ok _ =>
      match fwd ep body with
      | .ok _ => none
      | .error e => some (.transport e)
  | .error e => some (.health e)

/-- Every forwarding attempt in the trace carried the given body. -/
def forwardEventsUseBody (body : BufferedBody) (trace : List AttemptEvent) :
    Prop :=
  ∀ ep b, AttemptEvent.forwardAttempt ep b ∈ trace → b = body

/-! ## Theorems -/

theorem Endpoint.normalizedUrl_eq (ep : Endpoint) :
    ep.normalizedUrl = normalizeUrl ep.url := rfl

theorem normalizeUrl_of_not_slash {u : String} (h : ¬ u.data.getLast? = some '/') :
    normalizeUrl u = u := by
  simp [normalizeUrl, h]

theorem normalizeUrl_data {u : String} (h : u.data.getLast? = some '/') :
    (normalizeUrl u).data = u.data.dropLast := by
  simp [normalizeUrl, h]

/-- On urls not ending in `//`, normalization is idempotent. -/
theorem normalizeUrl_idem {u : String} (h : ¬ endsWithTwoSlashes u) :
    normalizeUrl (normalizeUrl u) = normalizeUrl u := by
  by_cases hl : u.data.getLast? = some '/'
  · have hd : (normalizeUrl u).data = u.data.dropLast := normalizeUrl_data hl
    have h2 : ¬ (normalizeUrl u).data.getLast? = some '/' := by
      rw [hd]; intro hc; exact h ⟨hl, hc⟩
    exact normalizeUrl_of_not_slash h2
  · rw [normalizeUrl_of_not_slash hl, normalizeUrl_of_not_slash hl]

/-- On urls ending in `//`, one normalization keeps a final slash. -/
theorem normalizeUrl_keeps_slash {u : String} (h : endsWithTwoSlashes u) :
    (normalizeUrl u).data.getLast? = some '/' := by
  rw [normalizeUrl_data h.1]
  exact h.2

theorem foldl_seenStep_eq (l : List Endpoint) :
    ∀ acc : List Endpoint × List String,
      l.foldl seenStep acc =
        (acc.1 ++ keepFirstByUrl acc.2 l,
         acc.2 ++ (keepFirstByUrl acc.2 l).map Endpoint.url) := by
  induction l with
  | nil => intro acc; simp [keepFirstByUrl]
  | cons ep rest ih =>
      intro acc
      by_cases h : acc.2.contains ep.url
      · simp only [List.foldl_cons, seenStep, h, if_pos, keepFirstByUrl, ih]
      · simp only [List.foldl_cons, seenStep, h, if_neg, not_false_iff,
          keepFirstByUrl, ih, List.map_cons]
        simp [List.append_assoc]

@[simp] theorem GeoEndpoint.toEndpoint_url (ge : GeoEndpoint) :
    ge.toEndpoint.url = ge.url := rfl

theorem foldl_geoSeenStep_eq (l : List GeoEndpoint) :
    ∀ acc : List Endpoint × List String,
      l.foldl (fun acc ge => seenStep acc ge.toEndpoint) acc =
        (acc.1 ++ keepFirstByUrl acc.2 (l.map GeoEndpoint.toEndpoint),
         acc.2 ++ (keepFirstByUrl acc.2 (l.map GeoEndpoint.toEndpoint)).map
            Endpoint.url) := by
  induction l with
  | nil => intro acc; simp [keepFirstByUrl]
  | cons ge rest ih =>
      intro acc
      rw [List.foldl_cons]
      show List.foldl _ (seenStep acc ge.toEndpoint) rest = _
      rw [ih]
      unfold seenStep
      by_cases h : acc.2.contains ge.url
      · have hm : ge.url ∈ acc.2 := by simpa using h
        rw [if_pos (by simpa using h)]
        simp [keepFirstByUrl, hm]
      · have hm : ¬ ge.url ∈ acc.2 := by simpa using h
        rw [if_neg (by simpa using h)]
        simp [keepFirstByUrl, hm, List.append_assoc]

theorem foldl_pushAll_eq (l : List GeoEndpoint) :
    ∀ acc : List Endpoint × List String,
      l.foldl (fun (acc : List Endpoint × List String) ge =>
          (acc.1 ++ [ge.toEndpoint], acc.2 ++ [ge.url])) acc =
        (acc.1 ++ l.map GeoEndpoint.toEndpoint, acc.2 ++ l.map GeoEndpoint.url) := by
  induction l with
  | nil => intro acc; simp
  | cons ge rest ih =>
      intro acc
      simp [ih, List.append_assoc]

theorem selectGeoEndpoints_eq_model (geoEndpoints : List GeoEndpoint)
    (cf : Option CfProperties) (defaultEndpoints : List Endpoint) :
    selectGeoEndpoints geoEndpoints cf defaultEndpoints =
      selectGeoEndpointsModel geoEndpoints cf defaultEndpoints := by
  cases cf with
  | none => rfl
  | some c =>
      simp only [selectGeoEndpoints, selectGeoEndpointsModel]
      by_cases hm : 0 <
          (geoEndpoints.filter (fun ge => ge.matchesCfProperties c)).length
      · rw [if_pos hm, if_pos hm]
        rw [foldl_pushAll_eq, foldl_seenStep_eq, foldl_geoSeenStep_eq]
        simp [List.append_assoc]
      · rw [if_neg hm, if_neg hm]

theorem keepFirstByUrl_url_not_mem :
    ∀ (l : List Endpoint) (seen : List String) (ep : Endpoint),
      ep ∈ keepFirstByUrl seen l → ep.url ∉ seen := by
  intro l
  induction l with
  | nil => intro seen ep h; simp [keepFirstByUrl] at h
  | cons p rest ih =>
      intro seen ep h
      by_cases hc : seen.contains p.url
      · rw [keepFirstByUrl, if_pos hc] at h
        exact ih seen ep h
      · rw [keepFirstByUrl, if_neg hc] at h
        rcases List.mem_cons.mp h with hep | hep

        · subst hep
          intro hmem
          exact hc (by simpa using hmem)
        · have := ih (seen ++ [p.url]) ep hep
          intro hmem
          exact this (by simp [hmem])

theorem keepFirstByUrl_pairwise :
    ∀ (l : List Endpoint) (seen : List String),
      (keepFirstByUrl seen l).Pairwise (fun a b => a.url ≠ b.url) := by
  intro l
  induction l with
  | nil => intro seen; simp [keepFirstByUrl]
  | cons p rest ih =>
      intro seen
      by_cases hc : seen.contains p.url
      · rw [keepFirstByUrl, if_pos hc]
        exact ih seen
      · rw [keepFirstByUrl, if_neg hc]
        refine List.Pairwise.cons ?_ (ih (seen ++ [p.url]))
        intro b hb heq
        have hnot := keepFirstByUrl_url_not_mem rest (seen ++ [p.url]) b hb
        exact hnot (by simp [heq])

/-! ## Characterization of `failForward` -/

section FailForwardSteps

variable {ε : Type} {fwd : Endpoint → BufferedBody → Except ε Response}
variable {failoverStatuses : List Nat} {body : BufferedBody}
variable {startTime : Nat} {gatherTimeOf : Nat → Nat} {endTime : Nat}

theorem failForwardGo_nil (tried : List Endpoint) (le : Option (LastError ε)) :
    failForwardGo fwd failoverStatuses body startTime gatherTimeOf endTime
      [] tried le = (.error ⟨tried, le⟩, []) := rfl

theorem failForwardGo_cons_error {ep : Endpoint} {er : ε}
    (hf : fwd ep body = .error er) (rest tried : List Endpoint)
    (le : Option (LastError ε)) :
    failForwardGo fwd failoverStatuses body startTime gatherTimeOf endTime
        (ep :: rest) tried le =
      ((failForwardGo fwd failoverStatuses body startTime gatherTimeOf endTime
          rest (tried ++ [ep]) (some (.transport er))).1,
       .forwardAttempt ep body ::
        (failForwardGo fwd failoverStatuses body startTime gatherTimeOf endTime
          rest (tried ++ [ep]) (some (.transport er))).2) := by
  simp [failForwardGo, hf]

theorem failForwardGo_cons_failover {ep : Endpoint} {r : Response}
    (hf : fwd ep body = .ok r)
    (hs : failoverStatuses.contains r.status = true)
    (rest tried : List Endpoint) (le : Option (LastError ε)) :
    failForwardGo fwd failoverStatuses body startTime gatherTimeOf endTime
        (ep :: rest) tried le =
      ((failForwardGo fwd failoverStatuses body startTime gatherTimeOf endTime
          rest (tried ++ [ep]) (some (.badStatus r.status))).1,
       .forwardAttempt ep body ::
        (failForwardGo fwd failoverStatuses body startTime gatherTimeOf endTime
          rest (tried ++ [ep]) (some (.badStatus r.status))).2) := by
  have hs' : r.status ∈ failoverStatuses := by simpa using hs
  simp [failForwardGo, hf, hs']

theorem failForwardGo_cons_success {ep : Endpoint} {r : Response}
    (hf : fwd ep body = .ok r)
    (hs : failoverStatuses.contains r.status = false)
    (rest tried : List Endpoint) (le : Option (LastError ε)) :
    failForwardGo fwd failoverStatuses body startTime gatherTimeOf endTime
        (ep :: rest) tried le =
      (.ok (addLoadBalancerHeaders r ep (tried ++ [ep]) startTime
          (gatherTimeOf tried.length) endTime),
       [.forwardAttempt ep body]) := by
  have hs' : r.status ∉ failoverStatuses := by simpa using hs
  simp [failForwardGo, hf, hs']

theorem failForwardGo_all_bad :
    ∀ (init : List Endpoint) (last : Endpoint)
      (tried : List Endpoint) (le : Option (LastError ε)),
      (∀ ep ∈ init ++ [last], goodForward? fwd failoverStatuses body ep = none) →
      (failForwardGo fwd failoverStatuses body startTime gatherTimeOf endTime
          (init ++ [last]) tried le).1 =
        .error ⟨tried ++ init ++ [last],
          forwardFailure? fwd failoverStatuses body last⟩ := by
  intro init
  induction init with
  | nil =>
      intro last tried le hall
      have hbad := hall last (by simp)
      unfold goodForward? at hbad
      cases hf : fwd last body with
      | ok r =>
          rw [hf] at hbad
          by_cases hs : r.status ∈ failoverStatuses
          · have hc : failoverStatuses.contains r.status = true := by
              simpa using hs
            rw [List.nil_append,
              failForwardGo_cons_failover hf hc [] tried le,
              failForwardGo_nil]
            simp [forwardFailure?, hf, hs]
          · have hc : failoverStatuses.contains r.status = false := by
              simpa using hs
            simp [hc] at hbad
            exact absurd hbad hs
      | error e =>
          rw [List.nil_append, failForwardGo_cons_error hf [] tried le,
            failForwardGo_nil]
          simp [forwardFailure?, hf]
  | cons p init' ih =>
      intro last tried le hall
      have hbad := hall p (by simp)
      unfold goodForward? at hbad
      have hall' : ∀ ep ∈ init' ++ [last],
          goodForward? fwd failoverStatuses body ep = none := by
        intro ep hep
        exact hall ep (by simp at hep ⊢; tauto)
      cases hf : fwd p body with
      | ok r =>
          rw [hf] at hbad
          by_cases hs : r.status ∈ failoverStatuses
          · have hc : failoverStatuses.contains r.status = true := by
              simpa using hs
            rw [List.cons_append, failForwardGo_cons_failover hf hc _ tried le]
            rw [ih last (tried ++ [p]) _ hall']
            simp [List.append_assoc]
          · have hc : failoverStatuses.contains r.status = false := by
              simpa using hs
            simp [hc] at hbad
            exact absurd hbad hs
      | error e =>
          rw [List.cons_append, failForwardGo_cons_error hf _ tried le]
          rw [ih last (tried ++ [p]) _ hall']
          simp [List.append_assoc]

theorem failForwardGo_first_good :
    ∀ (pre : List Endpoint) (ep : Endpoint) (post : List Endpoint) (r : Response)
      (tried : List Endpoint) (le : Option (LastError ε)),
      (∀ p ∈ pre, goodForward? fwd failoverStatuses body p = none) →
      goodForward? fwd failoverStatuses body ep = some r →
      (failForwardGo fwd failoverStatuses body startTime gatherTimeOf endTime
          (pre ++ ep :: post) tried le).1 =
        .ok (addLoadBalancerHeaders r ep (tried ++ pre ++ [ep]) startTime
          (gatherTimeOf (tried.length + pre.length)) endTime) := by
  intro pre
  induction pre with
  | nil =>
      intro ep post r tried le _ hgood
      unfold goodForward? at hgood
      cases hf : fwd ep body with
      | ok r' =>
          rw [hf] at hgood
          simp at hgood
          obtain ⟨hs', hr⟩ := hgood
          subst hr
          have hc : failoverStatuses.contains r'.status = false := by
            simpa using hs'
          rw [List.nil_append, failForwardGo_cons_success hf hc post tried le]
          simp
      | error e =>
          rw [hf] at hgood
          simp at hgood
  | cons p pre' ih =>
      intro ep post r tried le hpre hgood
      have hbad := hpre p (by simp)
      unfold goodForward? at hbad
      have hpre' : ∀ q ∈ pre', goodForward? fwd failoverStatuses body q = none :=
        fun q hq => hpre q (by simp [hq])
      have hlen : (tried ++ [p]).length + pre'.length =
          tried.length + (p :: pre').length := by
        simp; omega
      cases hf : fwd p body with
      | ok r' =>
          rw [hf] at hbad
          by_cases hs : r'.status ∈ failoverStatuses
          · have hc : failoverStatuses.contains r'.status = true := by
              simpa using hs
            rw [List.cons_append, failForwardGo_cons_failover hf hc _ tried le]
            rw [ih ep post r (tried ++ [p]) _ hpre' hgood, hlen]
            simp [List.append_assoc]
          · have hc : failoverStatuses.contains r'.status = false := by
              simpa using hs
            simp [hc] at hbad
            exact absurd hbad hs
      | error e =>
          rw [List.cons_append, failForwardGo_cons_error hf _ tried le]
          rw [ih ep post r (tried ++ [p]) _ hpre' hgood, hlen]
          simp [List.append_assoc]

end FailForwardSteps

/-- C1: For every candidate list, forward oracle, buffering outcome and
failover status set, `failForward` returns the (annotated) response of the
first candidate in list order whose forward succeeds with a status not in the
failover set, skipping candidates whose forward fails at the transport level or
returns a failover status; if no candidate yields such a response it fails with
a `NoHealthyEndpointsError` whose tried list is the entire candidate list in
order and whose last error is the failure recorded for the last candidate. -/
theorem failForward_first_success_or_exhaustion {ε : Type}
    (endpoints : List Endpoint)
    (fwd : Endpoint → BufferedBody → Except ε Response)
    (bufferResult : Except ε BufferedBody)
    (startTime : Nat) (gatherTimeOf : Nat → Nat) (endTime : Nat)
    (failoverStatuses : List Nat) :
    (∀ (pre : List Endpoint) (ep : Endpoint) (post : List Endpoint)
        (r : Response),
      endpoints = pre ++ ep :: post →
      (∀ p ∈ pre,
        goodForward? fwd failoverStatuses (bufferedOrNull bufferResult) p =
          none) →
      goodForward? fwd failoverStatuses (bufferedOrNull bufferResult) ep =
        some r →
      (failForward endpoints fwd bufferResult startTime gatherTimeOf endTime
          failoverStatuses).1 =
        .ok (addLoadBalancerHeaders r ep (pre ++ [ep]) startTime
          (gatherTimeOf pre.length) endTime)) ∧
    (∀ (init : List Endpoint) (last : Endpoint),
      endpoints = init ++ [last] →
      (∀ ep ∈ endpoints,
        goodForward? fwd failoverStatuses (bufferedOrNull bufferResult) ep =
          none) →
      (failForward endpoints fwd bufferResult startTime gatherTimeOf endTime
          failoverStatuses).1 =
        .error ⟨endpoints,
          forwardFailure? fwd failoverStatuses (bufferedOrNull bufferResult)
            last⟩) := by
  constructor
  · intro pre ep post r hsplit hpre hgood
    subst hsplit
    unfold failForward
    rw [failForwardGo_first_good pre ep post r [] _ hpre hgood]
    simp
  · intro init last hsplit hall
    subst hsplit
    unfold failForward
    rw [failForwardGo_all_bad init last [] _ hall]
    simp

/-- Witness for the fail-forward theorem: with `[epOne, epTwo]` where `epOne`
answers 502 and `epTwo` answers 200, the 200 response of `epTwo` is returned
annotated with both tried endpoints; with `[epOne]` always failing at the
transport level, exhaustion carries the transport error. -/
theorem failForward_first_success_or_exhaustion_witness :
    (failForward [epOne, epTwo] fwdBadThenGood (.ok none) 0 (fun _ => 0) 0
        DEFAULT_FAILOVER_STATUSES).1 =
      .ok (addLoadBalancerHeaders ⟨200, []⟩ epTwo [epOne, epTwo] 0 0 0) ∧
    (failForward [epOne] fwdAlwaysDown (.ok none) 0 (fun _ => 0) 0
        DEFAULT_FAILOVER_STATUSES).1 =
      .error ⟨[epOne], some (.transport "down")⟩ := by
  constructor
  · have h := (failForward_first_success_or_exhaustion [epOne, epTwo]
      fwdBadThenGood (.ok none) 0 (fun _ => 0) 0 DEFAULT_FAILOVER_STATUSES).1
      [epOne] epTwo [] ⟨200, []⟩ rfl (by decide) (by decide)
    simpa using h
  · have h := (failForward_first_success_or_exhaustion [epOne]
      fwdAlwaysDown (.ok none) 0 (fun _ => 0) 0 DEFAULT_FAILOVER_STATUSES).2
      [] epOne rfl (by decide)
    simpa [forwardFailure?, fwdAlwaysDown] using h

/-! ## Characterization of `asyncBlock` -/

section AsyncBlockSteps

variable {ε : Type} {check : Endpoint → Except ε Bool}
variable {fwd : Endpoint → BufferedBody → Except ε Response} {body : BufferedBody}
variable {startTime : Nat} {gatherTimeOf : Nat → Nat} {endTime : Nat}

theorem asyncBlockGo_nil (tried : List Endpoint) (le : Option (LastError ε)) :
    asyncBlockGo check fwd body startTime gatherTimeOf endTime [] tried le =
      (.error ⟨tried, le⟩, []) := rfl

theorem asyncBlockGo_cons_unhealthy {ep : Endpoint} {er : ε}
    (hc : check ep = .error er) (rest tried : List Endpoint)
    (le : Option (LastError ε)) :
    asyncBlockGo check fwd body startTime gatherTimeOf endTime
        (ep :: rest) tried le =
      ((asyncBlockGo check fwd body startTime gatherTimeOf endTime rest
          (tried ++ [ep]) (some (.health er))).1,
       .healthCheck ep ::
        (asyncBlockGo check fwd body startTime gatherTimeOf endTime rest
          (tried ++ [ep]) (some (.health er))).2) := by
  simp [asyncBlockGo, hc]

theorem asyncBlockGo_cons_forward_error {ep : Endpoint} {b : Bool} {er : ε}
    (hc : check ep = .ok b) (hf : fwd ep body = .error er)
    (rest tried : List Endpoint) (le : Option (LastError ε)) :
    asyncBlockGo check fwd body startTime gatherTimeOf endTime
        (ep :: rest) tried le =
      ((asyncBlockGo check fwd body startTime gatherTimeOf endTime rest
          (tried ++ [ep]) (some (.transport er))).1,
       .healthCheck ep :: .forwardAttempt ep body ::
        (asyncBlockGo check fwd body startTime gatherTimeOf endTime rest
          (tried ++ [ep]) (some (.transport er))).2) := by
  simp [asyncBlockGo, hc, hf]

theorem asyncBlockGo_cons_success {ep : Endpoint} {b : Bool} {r : Response}
    (hc : check ep = .ok b) (hf : fwd ep body = .ok r)
    (rest tried : List Endpoint) (le : Option (LastError ε)) :
    asyncBlockGo check fwd body startTime gatherTimeOf endTime
        (ep :: rest) tried le =
      (.ok (addLoadBalancerHeaders r ep (tried ++ [ep]) startTime
          (gatherTimeOf tried.length) endTime),
       [.healthCheck ep, .forwardAttempt ep body]) := by
  simp [asyncBlockGo, hc, hf]

theorem asyncBlockGo_all_bad :
    ∀ (init : List Endpoint) (last : Endpoint)
      (tried : List Endpoint) (le : Option (LastError ε)),
      (∀ ep ∈ init ++ [last], goodCheckedForward? check fwd body ep = none) →
      (asyncBlockGo check fwd body startTime gatherTimeOf endTime
          (init ++ [last]) tried le).1 =
        .error ⟨tried ++ init ++ [last], checkedFailure? check fwd body last⟩ := by
  intro init
  induction init with
  | nil =>
      intro last tried le hall
      have hbad := hall last (by simp)
      unfold goodCheckedForward? at hbad
      cases hc : check last with
      | ok b =>
          rw [hc] at hbad
          cases hf : fwd last body with
          | ok r => rw [hf] at hbad; simp at hbad
          | error e =>
              rw [List.nil_append,
                asyncBlockGo_cons_forward_error hc hf [] tried le,
                asyncBlockGo_nil]
              simp [checkedFailure?, hc, hf]
      | error e =>
          rw [List.nil_append, asyncBlockGo_cons_unhealthy hc [] tried le,
            asyncBlockGo_nil]
          simp [checkedFailure?, hc]
  | cons p init' ih =>
      intro last tried le hall
      have hbad := hall p (by simp)
      unfold goodCheckedForward? at hbad
      have hall' : ∀ ep ∈ init' ++ [last],
          goodCheckedForward? check fwd body ep = none := by
        intro ep hep
        exact hall ep (by simp at hep ⊢; tauto)
      cases hc : check p with
      | ok b =>
          rw [hc] at hbad
          cases hf : fwd p body with
          | ok r => rw [hf] at hbad; simp at hbad
          | error e =>
              rw [List.cons_append,
                asyncBlockGo_cons_forward_error hc hf _ tried le]
              rw [ih last (tried ++ [p]) _ hall']
              simp [List.append_assoc]
      | error e =>
          rw [List.cons_append, asyncBlockGo_cons_unhealthy hc _ tried le]
          rw [ih last (tried ++ [p]) _ hall']
          simp [List.append_assoc]

theorem asyncBlockGo_first_good :
    ∀ (pre : List Endpoint) (ep : Endpoint) (post : List Endpoint) (r : Response)
      (tried : List Endpoint) (le : Option (LastError ε)),
      (∀ p ∈ pre, goodCheckedForward? check fwd body p = none) →
      goodCheckedForward? check fwd body ep = some r →
      (asyncBlockGo check fwd body startTime gatherTimeOf endTime
          (pre ++ ep :: post) tried le).1 =
        .ok (addLoadBalancerHeaders r ep (tried ++ pre ++ [ep]) startTime
          (gatherTimeOf (tried.length + pre.length)) endTime) := by
  intro pre
  induction pre with
  | nil =>
      intro ep post r tried le _ hgood
      unfold goodCheckedForward? at hgood
      cases hc : check ep with
      | ok b =>
          rw [hc] at hgood
          cases hf : fwd ep body with
          | ok r' =>
              rw [hf] at hgood
              have hr : r' = r := by simpa using hgood
              subst hr
              rw [List.nil_append, asyncBlockGo_cons_success hc hf post tried le]
              simp
          | error e => rw [hf] at hgood; simp at hgood
      | error e => rw [hc] at hgood; simp at hgood
  | cons p pre' ih =>
      intro ep post r tried le hpre hgood
      have hbad := hpre p (by simp)
      unfold goodCheckedForward? at hbad
      have hpre' : ∀ q ∈ pre', goodCheckedForward? check fwd body q = none :=
        fun q hq => hpre q (by simp [hq])
      have hlen : (tried ++ [p]).length + pre'.length =
          tried.length + (p :: pre').length := by
        simp; omega
      cases hc : check p with
      | ok b =>
          rw [hc] at hbad
          cases hf : fwd p body with
          | ok r' => rw [hf] at hbad; simp at hbad
          | error e =>
              rw [List.cons_append,
                asyncBlockGo_cons_forward_error hc hf _ tried le]
              rw [ih ep post r (tried ++ [p]) _ hpre' hgood, hlen]
              simp [List.append_assoc]
      | error e =>
          rw [List.cons_append, asyncBlockGo_cons_unhealthy hc _ tried le]
          rw [ih ep post r (tried ++ [p]) _ hpre' hgood, hlen]
          simp [List.append_assoc]

end AsyncBlockSteps

/-- C7: In the health-gated sequential strategy, candidates are processed
strictly in list order: the first candidate whose health probe passes and whose
forward succeeds has its (annotated) response returned immediately regardless
of its HTTP status — there is no status-based failover — while every earlier
candidate failed its probe or its forward; when every candidate fails, the
recorded error of the last candidate is carried by the exhaustion error. -/
theorem asyncBlock_first_healthy_success {ε : Type} (endpoints : List Endpoint)
    (check : Endpoint → Except ε Bool)
    (fwd : Endpoint → BufferedBody → Except ε Response)
    (bufferResult : Except ε BufferedBody)
    (startTime : Nat) (gatherTimeOf : Nat → Nat) (endTime : Nat) :
    (∀ (pre : List Endpoint) (ep : Endpoint) (post : List Endpoint)
        (r : Response),
      endpoints = pre ++ ep :: post →
      (∀ p ∈ pre,
        goodCheckedForward? check fwd (bufferedOrNull bufferResult) p = none) →
      goodCheckedForward? check fwd (bufferedOrNull bufferResult) ep = some r →
      (asyncBlock endpoints check fwd bufferResult startTime gatherTimeOf
          endTime).1 =
        .ok (addLoadBalancerHeaders r ep (pre ++ [ep]) startTime
          (gatherTimeOf pre.length) endTime)) ∧
    (∀ (init : List Endpoint) (last : Endpoint),
      endpoints = init ++ [last] →
      (∀ ep ∈ endpoints,
        goodCheckedForward? check fwd (bufferedOrNull bufferResult) ep = none) →
      (asyncBlock endpoints check fwd bufferResult startTime gatherTimeOf
          endTime).1 =
        .error ⟨endpoints,
          checkedFailure? check fwd (bufferedOrNull bufferResult) last⟩) := by
  constructor
  · intro pre ep post r hsplit hpre hgood
    subst hsplit
    unfold asyncBlock
    rw [asyncBlockGo_first_good pre ep post r [] _ hpre hgood]
    simp
  · intro init last hsplit hall
    subst hsplit
    unfold asyncBlock
    rw [asyncBlockGo_all_bad init last [] _ hall]
    simp

/-- Witness for the async-block theorem: with `[epOne, epTwo]` where `epOne`
is unhealthy and every forward answers 500, the 500 response of `epTwo` is
returned (no status-based failover), annotated with both tried endpoints; with
`[epTwo]` healthy but failing at the transport level, exhaustion carries the
transport error. -/
theorem asyncBlock_first_healthy_success_witness :
    (asyncBlock [epOne, epTwo] checkOneDown fwdAlways500 (.ok none) 0
        (fun _ => 0) 0).1 =
      .ok (addLoadBalancerHeaders ⟨500, []⟩ epTwo [epOne, epTwo] 0 0 0) ∧
    (asyncBlock [epTwo] checkOneDown fwdAlwaysDown (.ok none) 0
        (fun _ => 0) 0).1 =
      .error ⟨[epTwo], some (.transport "down")⟩ := by
  constructor
  · have h := (asyncBlock_first_healthy_success [epOne, epTwo] checkOneDown
      fwdAlways500 (.ok none) 0 (fun _ => 0) 0).1
      [epOne] epTwo [] ⟨500, []⟩ rfl (by decide) (by decide)
    simpa using h
  · have h := (asyncBlock_first_healthy_success [epTwo] checkOneDown
      fwdAlwaysDown (.ok none) 0 (fun _ => 0) 0).2
      [] epTwo rfl (by decide)
    simpa [checkedFailure?, checkOneDown, fwdAlwaysDown, epTwo] using h

/-- C10: Invoked directly with an empty candidate list, `failForward` and
`asyncBlock` perform no forward attempt and no health check (the attempt trace
is empty) and fail with an exhaustion error whose tried list is empty, carrying
the body-buffering failure as last error when buffering failed and no last
error otherwise. -/
theorem emptyCandidates_immediate_exhaustion {ε : Type}
    (check : Endpoint → Except ε Bool)
    (fwd : Endpoint → BufferedBody → Except ε Response)
    (bufferResult : Except ε BufferedBody)
    (startTime : Nat) (gatherTimeOf : Nat → Nat) (endTime : Nat)
    (failoverStatuses : List Nat) :
    failForward [] fwd bufferResult startTime gatherTimeOf endTime
        failoverStatuses =
      (.error ⟨[], match bufferResult with
        | .ok _ => none
        | .error e => some (.buffer e)⟩, []) ∧
    asyncBlock [] check fwd bufferResult startTime gatherTimeOf endTime =
      (.error ⟨[], match bufferResult with
        | .ok _ => none
        | .error e => some (.buffer e)⟩, []) := by
  cases bufferResult <;> exact ⟨rfl, rfl⟩

/-- C3: Parallel health-race error paths: with zero candidates the strategy
fails immediately (empty trace) with an exhaustion error whose tried list is
empty; when no candidate reports healthy within the ceiling (`raceResult =
none`) it fails with an exhaustion error whose tried list is all candidates;
and when the race winner's forward fails, the exhaustion error's tried list is
still all candidates, not just the winner, with the transport error recorded. -/
theorem promiseAny_exhaustion_cases {ε : Type} (endpoints : List Endpoint)
    (fwd : Endpoint → BufferedBody → Except ε Response)
    (bufferResult : Except ε BufferedBody) (startTime gatherTime endTime : Nat) :
    (∀ raceResult, promiseAny [] raceResult fwd bufferResult startTime
        gatherTime endTime = (.error ⟨[], none⟩, [])) ∧
    (endpoints ≠ [] →
      (promiseAny endpoints none fwd bufferResult startTime gatherTime
          endTime).1 = .error ⟨endpoints, none⟩) ∧
    (∀ (w : Endpoint) (e : ε), endpoints ≠ [] →
      fwd w (bufferedOrNull bufferResult) = .error e →
      (promiseAny endpoints (some w) fwd bufferResult startTime gatherTime
          endTime).1 = .error ⟨endpoints, some (.transport e)⟩) := by
  refine ⟨fun raceResult => rfl, ?_, ?_⟩
  · intro hne
    have hlen : ¬ endpoints.length = 0 := by simpa using hne
    simp [promiseAny, hlen]
  · intro w e hne hf
    have hlen : ¬ endpoints.length = 0 := by simpa using hne
    simp [promiseAny, hlen, hf]

/-- Witness for the promise-any exhaustion theorem at concrete inputs: the
empty race, a timed-out race over `[epOne]`, and a race won by `epOne` whose
forward then fails. -/
theorem promiseAny_exhaustion_cases_witness :
    promiseAny ([] : List Endpoint) none fwdAlwaysDown (.ok none) 0 0 0 =
      (.error ⟨[], none⟩, []) ∧
    (promiseAny [epOne] none fwdAlwaysDown (.ok none) 0 0 0).1 =
      .error ⟨[epOne], none⟩ ∧
    (promiseAny [epOne] (some epOne) fwdAlwaysDown (.ok none) 0 0 0).1 =
      .error ⟨[epOne], some (.transport "down")⟩ :=
  ⟨(promiseAny_exhaustion_cases [] fwdAlwaysDown (.ok none) 0 0 0).1 none,
   (promiseAny_exhaustion_cases [epOne] fwdAlwaysDown (.ok none) 0 0 0).2.1
     (by decide),
   (promiseAny_exhaustion_cases [epOne] fwdAlwaysDown (.ok none) 0 0 0).2.2
     epOne "down" (by decide) rfl⟩

/-! ## Header-absence lemmas for the annotator -/

theorem hasHeader_append (a b : List (String × String)) (m : String) :
    hasHeader (a ++ b) m = (hasHeader a m || hasHeader b m) := by
  simp [hasHeader, List.any_append]

theorem hasHeader_filter_ne (hs : List (String × String)) {name m : String}
    (hnm : m ≠ name) :
    hasHeader (hs.filter (fun p => p.1 ≠ name)) m = hasHeader hs m := by
  induction hs with
  | nil => rfl
  | cons p rest ih =>
      by_cases hp : p.1 = name
      · have hpm : (name == m) = false := by
          simp
          exact fun h => hnm h.symm
        simp [hasHeader, List.filter_cons, hp, hpm] at ih ⊢
        exact ih
      · simp [hasHeader, List.filter_cons, hp] at ih ⊢
        rw [ih]

theorem hasHeader_setHeader_ne (hs : List (String × String)) {name m : String}
    (v : String) (hnm : m ≠ name) :
    hasHeader (setHeader hs name v) m = hasHeader hs m := by
  rw [setHeader, hasHeader_append, hasHeader_filter_ne hs hnm]
  have hone : hasHeader [(name, v)] m = false := by
    simp [hasHeader]
    exact fun h => hnm h.symm
  rw [hone, Bool.or_false]

/-- When at most one endpoint was tried, the annotator adds only the endpoint
and latency headers: the presence of any other header name is unchanged. -/
theorem hasHeader_annotate_of_le_one (resp : Response) (ep : Endpoint)
    (tried : List Endpoint) (st gt et : Nat) {m : String}
    (h1 : m ≠ HEADER_ENDPOINT) (h2 : m ≠ HEADER_LATENCY)
    (h3 : m ≠ HEADER_GATHER_LATENCY) (hlen : ¬ 1 < tried.length) :
    hasHeader (addLoadBalancerHeaders resp ep tried st gt et).headers m =
      hasHeader resp.headers m := by
  simp only [addLoadBalancerHeaders]
  rw [if_neg hlen]
  rw [hasHeader_setHeader_ne _ _ h3, hasHeader_setHeader_ne _ _ h2,
    hasHeader_setHeader_ne _ _ h1]

/-- C9: On a successful parallel health-race dispatch the response is
annotated with a tried list containing only the winning endpoint, so the
tried-count and tried-endpoints headers are not added no matter how many
candidates were raced: whenever the upstream response does not itself carry
those header names, they are absent from the returned response. -/
theorem promiseAny_success_no_tried_headers {ε : Type}
    (endpoints : List Endpoint) (w : Endpoint) (resp : Response)
    (fwd : Endpoint → BufferedBody → Except ε Response)
    (bufferResult : Except ε BufferedBody) (startTime gatherTime endTime : Nat)
    (hne : endpoints ≠ [])
    (hf : fwd w (bufferedOrNull bufferResult) = .ok resp)
    (htc : hasHeader resp.headers HEADER_TRIED_COUNT = false)
    (hte : hasHeader resp.headers HEADER_TRIED_ENDPOINTS = false) :
    (promiseAny endpoints (some w) fwd bufferResult startTime gatherTime
        endTime).1 =
      .ok (addLoadBalancerHeaders resp w [w] startTime gatherTime endTime) ∧
    hasHeader (addLoadBalancerHeaders resp w [w] startTime gatherTime
        endTime).headers HEADER_TRIED_COUNT = false ∧
    hasHeader (addLoadBalancerHeaders resp w [w] startTime gatherTime
        endTime).headers HEADER_TRIED_ENDPOINTS = false := by
  have hlen : ¬ endpoints.length = 0 := by simpa using hne
  refine ⟨by simp [promiseAny, hlen, hf], ?_, ?_⟩
  · rw [@hasHeader_annotate_of_le_one resp w [w] startTime gatherTime endTime
      HEADER_TRIED_COUNT (by decide) (by decide) (by decide) (by simp)]
    exact htc
  · rw [@hasHeader_annotate_of_le_one resp w [w] startTime gatherTime endTime
      HEADER_TRIED_ENDPOINTS (by decide) (by decide) (by decide) (by simp)]
    exact hte

/-- Witness for the promise-any header theorem: racing `[epOne, epTwo]` with
winner `epOne` yields a response carrying neither tried header. -/
theorem promiseAny_success_no_tried_headers_witness :
    (promiseAny [epOne, epTwo] (some epOne) fwdAlways500 (.ok none) 0 0 0).1 =
      .ok (addLoadBalancerHeaders ⟨500, []⟩ epOne [epOne] 0 0 0) ∧
    hasHeader (addLoadBalancerHeaders ⟨500, []⟩ epOne [epOne] 0 0 0).headers
      HEADER_TRIED_COUNT = false ∧
    hasHeader (addLoadBalancerHeaders ⟨500, []⟩ epOne [epOne] 0 0 0).headers
      HEADER_TRIED_ENDPOINTS = false :=
  promiseAny_success_no_tried_headers [epOne, epTwo] epOne ⟨500, []⟩
    fwdAlways500 (.ok none) 0 0 0 (by decide) rfl (by decide) (by decide)

/-- C8: For every endpoint, the health-probe timeout equals half the
endpoint's configured request timeout rounded down, clamped to at least
1000 ms and at most 10000 ms. -/
theorem getHealthCheckTimeout_spec (ep : Endpoint) :
    getHealthCheckTimeout ep = max 1000 (min (ep.timeoutMs / 2) 10000) ∧
    1000 ≤ getHealthCheckTimeout ep ∧
    getHealthCheckTimeout ep ≤ 10000 := by
  unfold getHealthCheckTimeout
  refine ⟨rfl, le_max_left _ _, ?_⟩
  exact max_le (by norm_num) (min_le_right _ _)

/-- C4 counterexample: URL normalization is not idempotent: on a url
ending in `//`, a second application strips a second slash. -/
theorem normalizeUrl_idempotence_counterexample :
    normalizeUrl (normalizeUrl "http://x//") ≠ normalizeUrl "http://x//" := by
  decide

/-- C4 amended: URL normalization removes at most one trailing slash —
a URL ending in `//` still ends in `/` after one normalization — and it is
idempotent on every URL that does not end in `//`; `Endpoint.normalizedUrl`
and `GeoEndpoint.normalizedUrl` are both this normalization of the `url`
field. -/
theorem normalizeUrl_amended (u : String) (ep : Endpoint) (ge : GeoEndpoint) :
    (¬ endsWithTwoSlashes u → normalizeUrl (normalizeUrl u) = normalizeUrl u) ∧
    (endsWithTwoSlashes u → (normalizeUrl u).data.getLast? = some '/') ∧
    ep.normalizedUrl = normalizeUrl ep.url ∧
    ge.normalizedUrl = normalizeUrl ge.url :=
  ⟨fun h => normalizeUrl_idem h, fun h => normalizeUrl_keeps_slash h, rfl, rfl⟩

/-- Witness for the amended normalization theorem: `"http://a/"` does not end
in `//` and is idempotently normalized; `"http://b//"` ends in `//` and keeps
a final slash after one normalization. -/
theorem normalizeUrl_amended_witness :
    (¬ endsWithTwoSlashes "http://a/" ∧
      normalizeUrl (normalizeUrl "http://a/") = normalizeUrl "http://a/") ∧
    (endsWithTwoSlashes "http://b//" ∧
      (normalizeUrl "http://b//").data.getLast? = some '/') :=
  ⟨⟨by decide,
    (normalizeUrl_amended "http://a/" epOne geoDupA).1 (by decide)⟩,
   ⟨by decide,
    (normalizeUrl_amended "http://b//" epOne geoDupA).2.1 (by decide)⟩⟩

/-- C2 counterexample: The geo selector does not remove duplicates from
the matched origins: with the same Europe-targeting endpoint listed twice and
European tags, the code returns it twice while the spec's wording returns it
once. -/
theorem selectGeo_matched_dedup_counterexample :
    selectGeoEndpoints [geoDupA, geoDupA] (some cfEU) [] ≠
      selectGeoEndpointsSpec [geoDupA, geoDupA] (some cfEU) [] := by
  decide

/-- C2 amended: For every geo origin list, optional tags and fallback
list, the geo selector returns: the fallback list if non-empty, else all geo
origins projected, when tags are absent or no rule matches; and when at least
one rule matches, all matched origins in input order (duplicates by URL kept),
followed by the fallback origins whose URL is not already present (keeping
first), followed by the remaining geo origins whose URL is not already
present. -/
theorem selectGeo_priority_order_amended (geoEndpoints : List GeoEndpoint)
    (cf : Option CfProperties) (defaultEndpoints : List Endpoint) :
    selectGeoEndpoints geoEndpoints cf defaultEndpoints =
      selectGeoEndpointsModel geoEndpoints cf defaultEndpoints :=
  selectGeoEndpoints_eq_model geoEndpoints cf defaultEndpoints

/-- C5 counterexample: The candidate list the dispatcher will try is not
de-duplicated by normalized URL: a flat configuration listing the same
endpoint twice yields it twice. -/
theorem candidateList_dedup_counterexample :
    ¬ (getEndpointsToTry optsDup none).Pairwise
        (fun a b => a.normalizedUrl ≠ b.normalizedUrl) := by
  decide

/-- C5 amended: Candidate lists are not de-duplicated by normalized URL:
a flat endpoint list is passed through unchanged, duplicates included.  The
only de-duplication is by raw URL in the geo-matched branch and covers only
the portion appended after the matched block: that tail has pairwise-distinct
raw URLs, none of which occurs among the matched URLs. -/
theorem candidateList_dedup_amended :
    (∀ (eps : List Endpoint) (cf : Option CfProperties),
      getEndpointsToTry { endpoints := some eps } cf = eps) ∧
    (∀ (geoEndpoints : List GeoEndpoint) (c : CfProperties)
        (defaultEndpoints : List Endpoint),
      0 < (geoEndpoints.filter (fun ge => ge.matchesCfProperties c)).length →
      ∃ tail : List Endpoint,
        selectGeoEndpoints geoEndpoints (some c) defaultEndpoints =
          (geoEndpoints.filter (fun ge => ge.matchesCfProperties c)).map
            GeoEndpoint.toEndpoint ++ tail ∧
        tail.Pairwise (fun a b => a.url ≠ b.url) ∧
        ∀ ep ∈ tail,
          ep.url ∉ (geoEndpoints.filter
            (fun ge => ge.matchesCfProperties c)).map GeoEndpoint.url) := by
  constructor
  · intro eps cf; rfl
  · intro geoEndpoints c defaultEndpoints hm
    refine ⟨keepFirstByUrl
        ((geoEndpoints.filter (fun ge => ge.matchesCfProperties c)).map
          GeoEndpoint.url) defaultEndpoints ++
      keepFirstByUrl
        ((geoEndpoints.filter (fun ge => ge.matchesCfProperties c)).map
            GeoEndpoint.url ++
          (keepFirstByUrl
            ((geoEndpoints.filter (fun ge => ge.matchesCfProperties c)).map
              GeoEndpoint.url) defaultEndpoints).map Endpoint.url)
        (geoEndpoints.map GeoEndpoint.toEndpoint), ?_, ?_, ?_⟩
    · rw [selectGeoEndpoints_eq_model]
      simp only [selectGeoEndpointsModel]
      rw [if_pos hm]
      simp [List.append_assoc]
    · rw [List.pairwise_append]
      refine ⟨keepFirstByUrl_pairwise _ _, keepFirstByUrl_pairwise _ _, ?_⟩
      intro a ha b hb heq
      have hbnot := keepFirstByUrl_url_not_mem _ _ b hb
      apply hbnot
      rw [List.mem_append]
      right
      rw [← heq]
      exact List.mem_map_of_mem Endpoint.url ha
    · intro ep hep
      rcases List.mem_append.mp hep with h | h
      · exact keepFirstByUrl_url_not_mem _ _ ep h
      · have hnot := keepFirstByUrl_url_not_mem _ _ ep h
        intro hmem
        exact hnot (List.mem_append.mpr (Or.inl hmem))

/-- Witness for the amended candidate-list theorem: a flat two-endpoint list is
passed through, and the single-matched geo case decomposes with an empty
tail property. -/
theorem candidateList_dedup_amended_witness :
    getEndpointsToTry { endpoints := some [epOne, epTwo] } none =
      [epOne, epTwo] ∧
    (∃ tail : List Endpoint,
      selectGeoEndpoints [geoDupA] (some cfEU) [] =
        ([geoDupA].filter (fun ge => ge.matchesCfProperties cfEU)).map
          GeoEndpoint.toEndpoint ++ tail ∧
      tail.Pairwise (fun a b => a.url ≠ b.url) ∧
      ∀ ep ∈ tail,
        ep.url ∉ ([geoDupA].filter
          (fun ge => ge.matchesCfProperties cfEU)).map GeoEndpoint.url) :=
  ⟨candidateList_dedup_amended.1 [epOne, epTwo] none,
   candidateList_dedup_amended.2 [geoDupA] cfEU [] (by decide)⟩

/-! ## Buffering-failure behavior (C6) -/

theorem failForwardGo_trace_bodies {ε : Type}
    {fwd : Endpoint → BufferedBody → Except ε Response}
    {failoverStatuses : List Nat} {body : BufferedBody}
    {startTime : Nat} {gatherTimeOf : Nat → Nat} {endTime : Nat} :
    ∀ (l tried : List Endpoint) (le : Option (LastError ε)),
      forwardEventsUseBody body
        (failForwardGo fwd failoverStatuses body startTime gatherTimeOf endTime
          l tried le).2 := by
  intro l
  induction l with
  | nil => intro tried le ep b h; simp [failForwardGo_nil] at h
  | cons p rest ih =>
      intro tried le ep b h
      cases hf : fwd p body with
      | ok r =>
          by_cases hs : r.status ∈ failoverStatuses
          · have hc : failoverStatuses.contains r.status = true := by
              simpa using hs
            rw [failForwardGo_cons_failover hf hc rest tried le] at h
            simp only [List.mem_cons] at h
            rcases h with h | h
            · simpa using congrArg (fun ev => match ev with
                | AttemptEvent.forwardAttempt _ b => b
                | AttemptEvent.healthCheck _ => none) h
            · exact ih _ _ ep b h
          · have hc : failoverStatuses.contains r.status = false := by
              simpa using hs
            rw [failForwardGo_cons_success hf hc rest tried le] at h
            simp at h
            exact h.2
      | error e =>
          rw [failForwardGo_cons_error hf rest tried le] at h
          simp only [List.mem_cons] at h
          rcases h with h | h
          · simpa using congrArg (fun ev => match ev with
              | AttemptEvent.forwardAttempt _ b => b
              | AttemptEvent.healthCheck _ => none) h
          · exact ih _ _ ep b h

theorem failForwardGo_cons_trace_ne_nil {ε : Type}
    {fwd : Endpoint → BufferedBody → Except ε Response}
    {failoverStatuses : List Nat} {body : BufferedBody}
    {startTime : Nat} {gatherTimeOf : Nat → Nat} {endTime : Nat}
    (p : Endpoint) (rest tried : List Endpoint) (le : Option (LastError ε)) :
    (failForwardGo fwd failoverStatuses body startTime gatherTimeOf endTime
      (p :: rest) tried le).2 ≠ [] := by
  cases hf : fwd p body with
  | ok r =>
      by_cases hs : r.status ∈ failoverStatuses
      · have hc : failoverStatuses.contains r.status = true := by simpa using hs
        rw [failForwardGo_cons_failover hf hc rest tried le]
        simp
      · have hc : failoverStatuses.contains r.status = false := by
          simpa using hs
        rw [failForwardGo_cons_success hf hc rest tried le]
        simp
  | error e =>
      rw [failForwardGo_cons_error hf rest tried le]
      simp

theorem asyncBlockGo_trace_bodies {ε : Type}
    {check : Endpoint → Except ε Bool}
    {fwd : Endpoint → BufferedBody → Except ε Response} {body : BufferedBody}
    {startTime : Nat} {gatherTimeOf : Nat → Nat} {endTime : Nat} :
    ∀ (l tried : List Endpoint) (le : Option (LastError ε)),
      forwardEventsUseBody body
        (asyncBlockGo check fwd body startTime gatherTimeOf endTime
          l tried le).2 := by
  intro l
  induction l with
  | nil => intro tried le ep b h; simp [asyncBlockGo_nil] at h
  | cons p rest ih =>
      intro tried le ep b h
      cases hc : check p with
      | ok hb =>
          cases hf : fwd p body with
          | ok r =>
              rw [asyncBlockGo_cons_success hc hf rest tried le] at h
              simp at h
              exact h.2
          | error e =>
              rw [asyncBlockGo_cons_forward_error hc hf rest tried le] at h
              simp only [List.mem_cons] at h
              rcases h with h | h | h
              · simp at h
              · simpa using congrArg (fun ev => match ev with
                  | AttemptEvent.forwardAttempt _ b => b
                  | AttemptEvent.healthCheck _ => none) h
              · exact ih _ _ ep b h
      | error e =>
          rw [asyncBlockGo_cons_unhealthy hc rest tried le] at h
          simp only [List.mem_cons] at h
          rcases h with h | h
          · simp at h
          · exact ih _ _ ep b h

theorem asyncBlockGo_cons_trace_ne_nil {ε : Type}
    {check : Endpoint → Except ε Bool}
    {fwd : Endpoint → BufferedBody → Except ε Response} {body : BufferedBody}
    {startTime : Nat} {gatherTimeOf : Nat → Nat} {endTime : Nat}
    (p : Endpoint) (rest tried : List Endpoint) (le : Option (LastError ε)) :
    (asyncBlockGo check fwd body startTime gatherTimeOf endTime
      (p :: rest) tried le).2 ≠ [] := by
  cases hc : check p with
  | ok hb =>
      cases hf : fwd p body with
      | ok r =>
          rw [asyncBlockGo_cons_success hc hf rest tried le]
          simp
      | error e =>
          rw [asyncBlockGo_cons_forward_error hc hf rest tried le]
          simp
  | error e =>
      rw [asyncBlockGo_cons_unhealthy hc rest tried le]
      simp

/-- C6 counterexample: `promiseAny` does not record a body-buffering
failure as its last error: with one candidate, a failed buffering and a
timed-out race, the exhaustion error carries no last error rather than the
buffering failure. -/
theorem bufferFailure_recorded_counterexample :
    (promiseAny [epOne] none fwdAlwaysDown (Except.error "boom") 0 0 0).1 =
      .error ⟨[epOne], none⟩ ∧
    (promiseAny [epOne] none fwdAlwaysDown (Except.error "boom") 0 0 0).1 ≠
      .error ⟨[epOne], some (.buffer "boom")⟩ := by
  exact ⟨rfl, by decide⟩

/-- C6 amended: A body-buffering failure never aborts a strategy: each
strategy proceeds with its forwards carrying a `null` body.  In `failForward`
and `asyncBlock` the failure is recorded as the initial last error (it is the
exhaustion's last error when the candidate list is empty); `promiseAny`
discards it — even a race that times out after a buffering failure raises an
exhaustion with no last error. -/
theorem bufferFailure_nonAborting_amended {ε : Type} (e : ε) (ep : Endpoint)
    (rest : List Endpoint) (raceResult : Option Endpoint)
    (check : Endpoint → Except ε Bool)
    (fwd : Endpoint → BufferedBody → Except ε Response)
    (failoverStatuses : List Nat)
    (startTime : Nat) (gatherTimeOf : Nat → Nat) (endTime gatherTime : Nat) :
    ((failForward [] fwd (.error e) startTime gatherTimeOf endTime
        failoverStatuses).1 = .error ⟨[], some (.buffer e)⟩ ∧
      (asyncBlock [] check fwd (.error e) startTime gatherTimeOf endTime).1 =
        .error ⟨[], some (.buffer e)⟩) ∧
    ((failForward (ep :: rest) fwd (.error e) startTime gatherTimeOf endTime
        failoverStatuses).2 ≠ [] ∧
      forwardEventsUseBody none
        (failForward (ep :: rest) fwd (.error e) startTime gatherTimeOf endTime
          failoverStatuses).2) ∧
    ((asyncBlock (ep :: rest) check fwd (.error e) startTime gatherTimeOf
        endTime).2 ≠ [] ∧
      forwardEventsUseBody none
        (asyncBlock (ep :: rest) check fwd (.error e) startTime gatherTimeOf
          endTime).2) ∧
    ((promiseAny (ep :: rest) raceResult fwd (.error e) startTime gatherTime
        endTime).2 ≠ [] ∧
      forwardEventsUseBody none
        (promiseAny (ep :: rest) raceResult fwd (.error e) startTime gatherTime
          endTime).2) ∧
    (promiseAny (ep :: rest) none fwd (.error e) startTime gatherTime
        endTime).1 = .error ⟨ep :: rest, none⟩ := by
  refine ⟨⟨rfl, rfl⟩, ⟨?_, ?_⟩, ⟨?_, ?_⟩, ⟨?_, ?_⟩, ?_⟩
  · exact failForwardGo_cons_trace_ne_nil ep rest [] _
  · exact failForwardGo_trace_bodies (ep :: rest) [] _
  · exact asyncBlockGo_cons_trace_ne_nil ep rest [] _
  · exact asyncBlockGo_trace_bodies (ep :: rest) [] _
  · cases raceResult with
    | none => simp [promiseAny]
    | some w =>
        cases hf : fwd w (bufferedOrNull (Except.error e)) with
        | ok r => simp [promiseAny, hf]
        | error er => simp [promiseAny, hf]
  · cases raceResult with
    | none =>
        intro ep' b hb
        simp [promiseAny] at hb
    | some w =>
        intro ep' b hb
        cases hf : fwd w (bufferedOrNull (Except.error e)) with
        | ok r =>
            rw [promiseAny] at hb
            simp [hf] at hb
            exact hb.2
        | error er =>
            rw [promiseAny] at hb
            simp [hf] at hb
            exact hb.2
  · simp [promiseAny]

/-- Witness for the amended buffering theorem at concrete inputs: with a
buffering failure, the empty-list fail-forward records the failure, a
one-candidate fail-forward still attempts a forward, and a timed-out
promise-any reports no last error. -/
theorem bufferFailure_nonAborting_amended_witness :
    (failForward [] fwdAlwaysDown (Except.error "boom") 0 (fun _ => 0) 0
        DEFAULT_FAILOVER_STATUSES).1 = .error ⟨[], some (.buffer "boom")⟩ ∧
    (failForward [epOne] fwdAlwaysDown (Except.error "boom") 0 (fun _ => 0) 0
        DEFAULT_FAILOVER_STATUSES).2 ≠ [] ∧
    (promiseAny [epOne] none fwdAlwaysDown (Except.error "boom") 0 0 0).1 =
      .error ⟨[epOne], none⟩ :=
  ⟨(bufferFailure_nonAborting_amended "boom" epOne [] none checkAllHealthy
      fwdAlwaysDown DEFAULT_FAILOVER_STATUSES 0 (fun _ => 0) 0 0).1.1,
   (bufferFailure_nonAborting_amended "boom" epOne [] none checkAllHealthy
      fwdAlwaysDown DEFAULT_FAILOVER_STATUSES 0 (fun _ => 0) 0 0).2.1.1,
   (bufferFailure_nonAborting_amended "boom" epOne [] none checkAllHealthy
      fwdAlwaysDown DEFAULT_FAILOVER_STATUSES 0 (fun _ => 0) 0 0).2.2.2.2⟩

end LoadBalancer
